import Mathlib

/-!
Verification of the symbol-resolution core of the go-to-definition language
server (files `server/src/go-to-definition.ts` and `server/src/server.ts`).

The shallow embedding below translates the TypeScript source into Lean:
pure functions become Lean functions, the mutable visitor state becomes an
explicit `VisitorState` record threaded through the import-processing loop,
thrown exceptions become `Except`, and `undefined` becomes `Option`.
Parse-tree nodes carry ANTLR-style tokens (1-based line, 0-based column);
object identity of tree nodes is modelled with numeric node ids, and the
parent pointer of a node is modelled by the list of nodes from the node up
to the tree root (the chain actually traversed by `getScope`).

Parts of the scope model live in external libraries (antlr4-c3 and the base
visitor of toy-kotlin-language-server) whose code is not part of this
repository; those parts are modelled from the spec and marked
`Modelled from the spec:` in their doc comments.
-/

namespace GoToDef

/-- An ANTLR token: 1-based `line`, 0-based `charPositionInLine`, `text`. -/
structure Token where
  line : Nat
  charPositionInLine : Nat
  text : String
deriving DecidableEq, Repr

/-- A 0-based `{line, character}` position, with TypeScript number
arithmetic modelled on `Int`. -/
structure Pos where
  line : Int
  character : Int
deriving DecidableEq, Repr

/-- The `{start, end}` range object produced by `getRange`. -/
structure RangeRec where
  start : Pos
  «end» : Pos
deriving DecidableEq, Repr

/-- `LocationLink.create(documentUri, getRange(tree), getRange(declarationName))`
as stored on a symbol by `registerDeclaration`. -/
structure LocationLink where
  targetUri : String
  targetRange : RangeRec
  targetSelectionRange : RangeRec
deriving DecidableEq, Repr

/-- The response object of `connection.onDefinition`:
`{...declaration.location, originSelectionRange: getRange(position.context)}`. -/
structure DefResponse where
  targetUri : String
  targetRange : RangeRec
  targetSelectionRange : RangeRec
  originSelectionRange : RangeRec
deriving DecidableEq, Repr

/-- Parse-tree nodes. `varDecl` and `funDecl` are the two `ParserRuleContext`
kinds the visitor reacts to (`VariableDeclarationContext`,
`FunctionDeclarationContext`); `rule` is any other `ParserRuleContext`;
`terminal` is a `TerminalNode`. A rule context always carries a start token
and possibly lacks a stop token (antlr4ts types `stop` as possibly
undefined). `nameNode` models `ctx.simpleIdentifier()` resp.
`ctx.identifier()`. `id` models object identity of the node. -/
inductive PTree where
  | varDecl (id : Nat) (start : Token) (stop : Option Token)
      (nameNode : PTree) (children : List PTree)
  | funDecl (id : Nat) (start : Token) (stop : Option Token)
      (nameNode : PTree) (children : List PTree)
  | rule (id : Nat) (start : Token) (stop : Option Token)
      (children : List PTree)
  | terminal (id : Nat) (tok : Token)

/-- The node id (object identity) of a parse-tree node. -/
def nodeId : PTree → Nat
  | .varDecl i _ _ _ _ => i
  | .funDecl i _ _ _ _ => i
  | .rule i _ _ _ => i
  | .terminal i _ => i

mutual

/-- `node.text` of one node: the concatenated text of its terminals. -/
def textOf : PTree → String
  | .terminal _ t => t.text
  | .varDecl _ _ _ nm ch => textOf nm ++ textOfL ch
  | .funDecl _ _ _ nm ch => textOf nm ++ textOfL ch
  | .rule _ _ _ ch => textOfL ch

/-- Concatenated terminal text of a list of sibling nodes. -/
def textOfL : List PTree → String
  | [] => ""
  | t :: rest => textOf t ++ textOfL rest

end

mutual

/-- Depth-first search for the node with the given id in one subtree; on
success returns the node consed onto its chain of ancestors inside that
subtree (innermost first), i.e. the parent-pointer chain of the node. -/
def nodeChainT (target : Nat) (t : PTree) : Option (List PTree) :=
  if nodeId t = target then some [t]
  else
    match t with
    | .varDecl i st sp nm ch =>
      match nodeChainT target nm with
      | some c => some (c ++ [.varDecl i st sp nm ch])
      | none =>
        match nodeChainL target ch with
        | some c => some (c ++ [.varDecl i st sp nm ch])
        | none => none
    | .funDecl i st sp nm ch =>
      match nodeChainT target nm with
      | some c => some (c ++ [.funDecl i st sp nm ch])
      | none =>
        match nodeChainL target ch with
        | some c => some (c ++ [.funDecl i st sp nm ch])
        | none => none
    | .rule i st sp ch =>
      match nodeChainL target ch with
      | some c => some (c ++ [.rule i st sp ch])
      | none => none
    | .terminal _ _ => none

/-- Depth-first search over sibling subtrees. -/
def nodeChainL (target : Nat) (ts : List PTree) : Option (List PTree) :=
  match ts with
  | [] => none
  | t :: rest =>
    match nodeChainT target t with
    | some c => some c
    | none => nodeChainL target rest

end

/-- The chain from the node with the given id up to the root of the tree. -/
def nodeChain (root : PTree) (target : Nat) : Option (List PTree) :=
  nodeChainT target root

/-- Core of `getRange`: `start` and `stop` tokens to a `{start, end}` range;
reading `charPositionInLine` of an undefined stop token throws a TypeError. -/
def rangeFromTokens (st : Token) : Option Token → Except String RangeRec
  | none => .error "TypeError: stop token is undefined"
  | some sp =>
    .ok { start := { line := (st.line : Int) - 1,
                     character := (st.charPositionInLine : Int) },
          «end» := { line := (sp.line : Int) - 1,
                     character := (sp.charPositionInLine : Int) + sp.text.length } }

/-- `getRange(parseTree)`: for a `ParserRuleContext` use its start and stop
tokens, for a `TerminalNode` its single token serves as both. -/
def getRange : PTree → Except String RangeRec
  | .varDecl _ st sp _ _ => rangeFromTokens st sp
  | .funDecl _ st sp _ _ => rangeFromTokens st sp
  | .rule _ st sp _ => rangeFromTokens st sp
  | .terminal _ t => rangeFromTokens t (some t)

/-- A symbol of the scope tree. `varSym` models a `VariableSymbol` (never a
scope, never carries a context); `scopeSym` models a `ScopedSymbol` (the
symbol table itself, the global scope, and `RoutineSymbol`s), with its
optional `location` (own property set by `registerDeclaration`), its
optional `context` (the anchor parse-tree node set by `withScope`), and its
child symbols. -/
inductive Sym where
  | varSym (name : String) (location : Option LocationLink)
  | scopeSym (name : String) (location : Option LocationLink)
      (context : Option Nat) (children : List Sym)

/-- The symbol name. -/
def symName : Sym → String
  | .varSym n _ => n
  | .scopeSym n _ _ _ => n

/-- The symbol `location` own property (`undefined` when never assigned). -/
def symLocation : Sym → Option LocationLink
  | .varSym _ l => l
  | .scopeSym _ l _ _ => l

/-- The symbol `context` (scope anchor node), `undefined` for variables. -/
def symContext : Sym → Option Nat
  | .varSym _ _ => none
  | .scopeSym _ _ c _ => c

/-- The child symbols of a symbol (empty for a plain variable symbol). -/
def symChildren : Sym → List Sym
  | .varSym _ _ => []
  | .scopeSym _ _ _ ch => ch

/-- `scope instanceof ScopedSymbol`. -/
def isScoped : Sym → Bool
  | .varSym _ _ => false
  | .scopeSym _ _ _ _ => true

mutual

/-- All document URIs recorded in the locations of one symbol, including
its nested scope children. -/
def symUris : Sym → List String
  | .varSym _ loc => (loc.map LocationLink.targetUri).toList
  | .scopeSym _ loc _ ch =>
    (loc.map LocationLink.targetUri).toList ++ symsUris ch

/-- All document URIs recorded in the locations of a list of symbols. -/
def symsUris : List Sym → List String
  | [] => []
  | s :: rest => symUris s ++ symsUris rest

end

/-- `findDeclaration(name, scope)`. The argument list is the chain from the
starting symbol through its `parent` links (the code walks `scope.parent`
past non-scoped symbols, returns `undefined` when the chain is exhausted,
searches the children of the first scoped symbol via
`getSymbolsOfType(Symbol).find(s => s.name == name)`, returns the match if
it has an own `location` property and otherwise recurses on the parent). -/
def findDeclaration (name : String) : List Sym → Option Sym
  | [] => none
  | s :: rest =>
    if isScoped s then
      match (symChildren s).find? (fun c => symName c == name) with
      | some c =>
        if (symLocation c).isSome then some c else findDeclaration name rest
      | none => findDeclaration name rest
    else
      findDeclaration name rest

mutual

/-- Modelled from the spec: `symbolTable.symbolWithContext(context)` of the
external antlr4-c3 library (not part of this repository) finds, depth-first,
the symbol whose scope-anchor `context` is exactly the given node. The
search returns the found symbol consed onto its chain of ancestors, which
models the parent pointer of the returned symbol object; `anc` is the
ancestor chain of the symbol currently being examined. -/
def searchCtxT (target : Nat) (anc : List Sym) (s : Sym) :
    Option (List Sym) :=
  match s with
  | .varSym n loc =>
    if symContext (.varSym n loc) = some target
    then some (.varSym n loc :: anc) else none
  | .scopeSym n loc c ch =>
    if c = some target then some (.scopeSym n loc c ch :: anc)
    else searchCtxL target (.scopeSym n loc c ch :: anc) ch

/-- Depth-first search over sibling symbols sharing the ancestor chain
`anc`. -/
def searchCtxL (target : Nat) (anc : List Sym) (syms : List Sym) :
    Option (List Sym) :=
  match syms with
  | [] => none
  | s :: rest =>
    match searchCtxT target anc s with
    | some p => some p
    | none => searchCtxL target anc rest

end

/-- `symbolWithContext` applied to the whole table. -/
def searchContext (target : Nat) (anc : List Sym) (syms : List Sym) :
    Option (List Sym) :=
  searchCtxL target anc syms

/-- `getScope(context, symbolTable)`: walk the parse-tree parent chain of
the identifier (given as the list of node ids from the node up to the root);
return the first symbol anchored at one of those nodes, or `undefined` when
the chain is exhausted. -/
def getScope (tbl : Sym) : List Nat → Option (List Sym)
  | [] => none
  | n :: rest =>
    match searchContext n [] [tbl] with
    | some p => some p
    | none => getScope tbl rest

/-- The body of `connection.onDefinition` after `computeTokenPosition`:
resolve the scope of the context node, look the identifier text up along the
scope chain, and on success answer the declaration location spread together
with `originSelectionRange: getRange(position.context)`. -/
def onDefinition (tbl : Sym) (ctxChain : List Nat) (ctxNode : PTree) :
    Except String (Option DefResponse) :=
  let scope := getScope tbl ctxChain
  match findDeclaration (textOf ctxNode) (scope.getD []) with
  | some d =>
    match symLocation d with
    | some loc =>
      match getRange ctxNode with
      | .error e => .error e
      | .ok origin =>
        .ok (some { targetUri := loc.targetUri, targetRange := loc.targetRange,
                    targetSelectionRange := loc.targetSelectionRange,
                    originSelectionRange := origin })
    | none => .ok none
  | none => .ok none

/-- The definition request for the node with the given id in the given
tree: `computeTokenPosition` is modelled as locating the node and its
parent chain; when no node is found the handler answers `undefined`. -/
def gotoDefinition (root : PTree) (tbl : Sym) (target : Nat) :
    Except String (Option DefResponse) :=
  match nodeChain root target with
  | some (n :: anc) => onDefinition tbl ((n :: anc).map nodeId) n
  | _ => .ok none

/-- Modelled from the spec: adding a symbol to the `symbols` mapping of a
scope. The mapping lives in the external antlr4-c3 library
(`SymbolTable.addNewSymbolOfType` appending to `ScopedSymbol.children`),
which is not part of this repository; the spec describes it as a mapping
from name to symbol where the last declaration wins on a name collision
within the same scope and a collision is not an error. Only named entries
collide; the anonymous root scope never takes part in a collision. -/
def addSymbol (cs : List Sym) (s : Sym) : List Sym :=
  if symName s = "" then cs ++ [s]
  else cs.filter (fun c => symName c != symName s) ++ [s]

/-- Register a list of symbols into a scope child list in order, applying
the last-declaration-wins mapping discipline at each step. -/
def registerAll (init : List Sym) (contribs : List Sym) : List Sym :=
  contribs.foldl addSymbol init

/-- `registerDeclaration(symbol, tree, declarationName)`:
`symbol.location = LocationLink.create(this.documentUri, getRange(tree),
getRange(declarationName))`; a range failure is a thrown TypeError. -/
def locationLinkOf (uri : String) (tree nameNode : PTree) :
    Except String LocationLink :=
  match getRange tree with
  | .error e => .error e
  | .ok tr =>
    match getRange nameNode with
    | .error e => .error e
    | .ok nr =>
      .ok { targetUri := uri, targetRange := tr, targetSelectionRange := nr }

mutual

/-- The symbol-table visitor walk over one node, returning the symbols it
registers into the scope that is current at that node, in registration
order. A `varDecl` adds a `VariableSymbol` with its recorded location and
keeps walking its children in the same scope; a `funDecl` opens a
`RoutineSymbol` child scope anchored at the declaration node, records its
location, and walks its children inside the new scope (`withScope`
restores the enclosing scope afterwards); any other node is walked
transparently. -/
def visitT (uri : String) (t : PTree) : Except String (List Sym) :=
  match t with
  | .varDecl i st sp nm ch =>
    match locationLinkOf uri (.varDecl i st sp nm ch) nm with
    | .error e => .error e
    | .ok loc =>
      match visitL uri ch with
      | .error e => .error e
      | .ok inner => .ok (Sym.varSym (textOf nm) (some loc) :: inner)
  | .funDecl i st sp nm ch =>
    match locationLinkOf uri (.funDecl i st sp nm ch) nm with
    | .error e => .error e
    | .ok loc =>
      match visitL uri ch with
      | .error e => .error e
      | .ok inner =>
        .ok [Sym.scopeSym (textOf nm) (some loc) (some i)
              (registerAll [] inner)]
  | .rule _ _ _ ch => visitL uri ch
  | .terminal _ _ => .ok []

/-- The visitor walk over a list of sibling nodes, concatenating their
contributions in document order. -/
def visitL (uri : String) (ts : List PTree) : Except String (List Sym) :=
  match ts with
  | [] => .ok []
  | t :: rest =>
    match visitT uri t with
    | .error e => .error e
    | .ok a =>
      match visitL uri rest with
      | .error e => .error e
      | .ok b => .ok (a ++ b)

end

/-- `symbolTableVisitor.visit(parseTree)`: the contributions of one tree. -/
def visit (uri : String) (t : PTree) : Except String (List Sym) :=
  visitT uri t

/-- The symbol table holding the given root-scope children: the
`SymbolTable` object (itself a scoped symbol with empty name, no location
and no anchor) whose single child is the global scope created in the
visitor constructor (`addNewSymbolOfType(ScopedSymbol, undefined)`). -/
def mkTable (rootSyms : List Sym) : Sym :=
  Sym.scopeSym "" none none [Sym.scopeSym "" none none rootSyms]

/-- The mutable state of the shared `SymbolTableVisitor` that import
processing touches: its public `documentUri` field and the children of the
global scope of its symbol table. -/
structure VisitorState where
  documentUri : String
  rootSymbols : List Sym

/-- `computeBaseUri(uri)`: the prefix of `uri` up to and including the last
`/`, or the empty string when `uri` has no `/`. -/
def computeBaseUri (uri : String) : String :=
  String.mk (((uri.toList).reverse.dropWhile (fun c => c != '/')).reverse)

/-- `processImport(path, symbolTableVisitor)`: read and parse the file at
`path` and fold its declarations into the shared table with the visitor
current `documentUri`; any failure (unreadable file, parse or walk error)
is caught and reported as a warning, leaving the state unchanged. The
file-system content is modelled as a map from path to parsed tree; `none`
models a read failure. -/
def processImport (fs : String → Option PTree) (path : String)
    (v : VisitorState) : VisitorState × List String :=
  match fs path with
  | some tree =>
    match visit v.documentUri tree with
    | .ok syms =>
      ({ v with rootSymbols := registerAll v.rootSymbols syms }, [])
    | .error e =>
      (v, ["Cannot read from imported file " ++ path ++ ": " ++ e])
  | none =>
    (v, ["Cannot read from imported file " ++ path ++ ": read failure"])

/-- The `for` loop of `processImports`: `baseUri` and `basePath` are fixed
before the loop. For each imported identifier, resolve
`basePath + identifier + ".mykt"`; when the file exists rebind the visitor
`documentUri` to `baseUri + filename` and process the import, otherwise
record the warning `Imported file not found: ...` and continue. Returns the
final state and the warnings in emission order. -/
def importLoop (fs : String → Option PTree) (baseUri basePath : String)
    (imports : List String) (v : VisitorState) : VisitorState × List String :=
  match imports with
  | [] => (v, [])
  | f :: rest =>
    let filename := f ++ ".mykt"
    let filepath := basePath ++ filename
    if (fs filepath).isSome then
      let v1 := { v with documentUri := baseUri ++ filename }
      let r1 := processImport fs filepath v1
      let r2 := importLoop fs baseUri basePath rest r1.1
      (r2.1, r1.2 ++ r2.2)
    else
      let r2 := importLoop fs baseUri basePath rest v
      (r2.1, ("Imported file not found: " ++ filepath) :: r2.2)

/-- `processImports(imports, symbolTableVisitor)`: remember the original
`documentUri`, run the loop, and restore the original `documentUri` at the
end. `ep` models `ensurePath` (platform path normalization, an external
collaborator). -/
def processImports (fs : String → Option PTree) (ep : String → String)
    (imports : List String) (v : VisitorState) : VisitorState × List String :=
  let uri := v.documentUri
  let baseUri := computeBaseUri uri
  let basePath := ep baseUri
  let r := importLoop fs baseUri basePath imports v
  ({ r.1 with documentUri := uri }, r.2)

/-- The per-document artifacts memoized by `ensureParsed`: the parser is
modelled by the input text it was created from, together with the parse
tree and the symbol-table visitor. In the source these are three dynamic
properties of the document object that are always written together and
cleared together. -/
structure ParseArtifacts where
  parserText : String
  tree : PTree
  visitor : VisitorState

/-- An open text document with its parse cache. -/
structure Document where
  uri : String
  text : String
  cache : Option ParseArtifacts

/-- The uncached path of `ensureParsed`: parse the text, create a fresh
visitor for the document URI, process the import list of the tree when one
is present (`parseTree?.preamble()?.importList()?.importHeader()`, modelled
by `impOf`), then walk the main tree with the visitor. Warnings go to the
diagnostics channel and are not part of the cached artifacts. -/
def buildArtifacts (parse : String → PTree) (impOf : PTree → Option (List String))
    (fs : String → Option PTree) (ep : String → String)
    (uri text : String) : Except String ParseArtifacts :=
  let tree := parse text
  let v0 : VisitorState := { documentUri := uri, rootSymbols := [] }
  let v1 := match impOf tree with
            | some imports => (processImports fs ep imports v0).1
            | none => v0
  match visit v1.documentUri tree with
  | .error e => .error e
  | .ok syms =>
    .ok { parserText := text, tree := tree,
          visitor := { v1 with rootSymbols := registerAll v1.rootSymbols syms } }

/-- `ensureParsed(document)`: answer from the cache when the parser is
present, otherwise rebuild from the current text and store the artifacts on
the document. -/
def ensureParsed (parse : String → PTree) (impOf : PTree → Option (List String))
    (fs : String → Option PTree) (ep : String → String) (d : Document) :
    Except String (ParseArtifacts × Document) :=
  match d.cache with
  | some a => .ok (a, d)
  | none =>
    (buildArtifacts parse impOf fs ep d.uri d.text).map
      (fun a => (a, { d with cache := some a }))

/-- `markForReparsing(document)`: unconditionally clear the cached parser,
parse tree and symbol-table visitor. -/
def markForReparsing (d : Document) : Document :=
  { d with cache := none }

/-- A content-change notification: the document manager stores the new
text and `documents.onDidChangeContent` invokes `markForReparsing`. -/
def contentChange (d : Document) (newText : String) : Document :=
  markForReparsing { d with text := newText }

/-! Concrete example programs used to instantiate the theorems. `exProg`
models the parse tree of the source

```
var x = 0
fun f() {
  var x = 1
  x
}
fun g() {
  x
}
var y = x
```

with one variable `x` at file scope, a shadowing `x` inside routine `f`, a
use of `x` inside `f` (terminal node 8), a use of `x` inside routine `g`
(terminal node 12), and a top-level use of `x` in the initializer of `y`
(terminal node 15). -/

/-- The URI of the example document. -/
def exUri : String := "file:///proj/main.mykt"

/-- Declaration `var x = 0` at file scope (node 1, name node 2). -/
def exVarX : PTree :=
  .varDecl 1 ⟨1, 0, "var"⟩ (some ⟨1, 8, "0"⟩) (.terminal 2 ⟨1, 4, "x"⟩)
    [.terminal 20 ⟨1, 8, "0"⟩]

/-- Routine `f` (node 3) with the shadowing `var x = 1` (node 5) and a use
of `x` (terminal node 8 inside expression node 7). -/
def exFunF : PTree :=
  .funDecl 3 ⟨2, 0, "fun"⟩ (some ⟨5, 0, "\x7d"⟩) (.terminal 4 ⟨2, 4, "f"⟩)
    [.varDecl 5 ⟨3, 2, "var"⟩ (some ⟨3, 10, "1"⟩) (.terminal 6 ⟨3, 6, "x"⟩) [],
     .rule 7 ⟨4, 2, "x"⟩ (some ⟨4, 2, "x"⟩) [.terminal 8 ⟨4, 2, "x"⟩]]

/-- Routine `g` (node 9) containing a use of `x` (terminal node 12). -/
def exFunG : PTree :=
  .funDecl 9 ⟨6, 0, "fun"⟩ (some ⟨8, 0, "\x7d"⟩) (.terminal 10 ⟨6, 4, "g"⟩)
    [.rule 11 ⟨7, 2, "x"⟩ (some ⟨7, 2, "x"⟩) [.terminal 12 ⟨7, 2, "x"⟩]]

/-- Declaration `var y = x` at file scope (node 13), whose initializer is
the top-level use of `x` (terminal node 15). -/
def exVarY : PTree :=
  .varDecl 13 ⟨9, 0, "var"⟩ (some ⟨9, 8, "x"⟩) (.terminal 14 ⟨9, 4, "y"⟩)
    [.terminal 15 ⟨9, 8, "x"⟩]

/-- The whole example file (root node 0). -/
def exProg : PTree :=
  .rule 0 ⟨1, 0, "var"⟩ (some ⟨9, 8, "x"⟩) [exVarX, exFunF, exFunG, exVarY]

/-- The root-scope symbols built for the example file. -/
def exRootSyms : List Sym :=
  match visit exUri exProg with
  | .ok syms => syms
  | .error _ => []

/-- The global scope object of the example table. -/
def exRootScope : Sym := Sym.scopeSym "" none none exRootSyms

/-- The example symbol table. -/
def exTable : Sym := mkTable exRootSyms

/-- The declaration location of the file-scope `var x = 0`. -/
def exOuterLoc : LocationLink :=
  { targetUri := exUri,
    targetRange := { start := ⟨0, 0⟩, «end» := ⟨0, 9⟩ },
    targetSelectionRange := { start := ⟨0, 4⟩, «end» := ⟨0, 5⟩ } }

/-- The declaration location of the shadowing `var x = 1` inside `f`. -/
def exInnerLoc : LocationLink :=
  { targetUri := exUri,
    targetRange := { start := ⟨2, 2⟩, «end» := ⟨2, 11⟩ },
    targetSelectionRange := { start := ⟨2, 6⟩, «end» := ⟨2, 7⟩ } }

/-- The expected definition response for the use of `x` inside `f`. -/
def exInnerResp : DefResponse :=
  { targetUri := exUri,
    targetRange := { start := ⟨2, 2⟩, «end» := ⟨2, 11⟩ },
    targetSelectionRange := { start := ⟨2, 6⟩, «end» := ⟨2, 7⟩ },
    originSelectionRange := { start := ⟨3, 2⟩, «end» := ⟨3, 3⟩ } }

/-- The expected definition response for the use of `x` inside `g`. -/
def exOuterResp : DefResponse :=
  { targetUri := exUri,
    targetRange := { start := ⟨0, 0⟩, «end» := ⟨0, 9⟩ },
    targetSelectionRange := { start := ⟨0, 4⟩, «end» := ⟨0, 5⟩ },
    originSelectionRange := { start := ⟨6, 2⟩, «end» := ⟨6, 3⟩ } }

/-- A routine `h` declaring two variables named `x` in its body scope
(nodes 32 and 34), used for the duplicate-declaration claim. -/
def dupProg : PTree :=
  .funDecl 30 ⟨1, 0, "fun"⟩ (some ⟨4, 0, "\x7d"⟩) (.terminal 31 ⟨1, 4, "h"⟩)
    [.varDecl 32 ⟨2, 2, "var"⟩ (some ⟨2, 10, "1"⟩) (.terminal 33 ⟨2, 6, "x"⟩) [],
     .varDecl 34 ⟨3, 2, "var"⟩ (some ⟨3, 10, "2"⟩) (.terminal 35 ⟨3, 6, "x"⟩) []]

/-- The location recorded for the second `var x = 2` declaration. -/
def dupSecondLoc : LocationLink :=
  { targetUri := exUri,
    targetRange := { start := ⟨2, 2⟩, «end» := ⟨2, 11⟩ },
    targetSelectionRange := { start := ⟨2, 6⟩, «end» := ⟨2, 7⟩ } }

/-- The location recorded for the routine `h` itself. -/
def dupRoutineLoc : LocationLink :=
  { targetUri := exUri,
    targetRange := { start := ⟨0, 0⟩, «end» := ⟨3, 1⟩ },
    targetSelectionRange := { start := ⟨0, 4⟩, «end» := ⟨0, 5⟩ } }

/-- A scope chain whose innermost scope holds a name match without a
location, used to instantiate the lookup-skips-unlocated theorem. -/
def wChain : List Sym :=
  [Sym.scopeSym "s1" none none [Sym.varSym "q" none],
   Sym.scopeSym "" none none []]

/-- An imported file declaring routine `helper` (kotlinFile root 59,
declaration node 60). -/
def wLibTree : PTree :=
  .rule 59 ⟨1, 0, "fun"⟩ (some ⟨2, 0, "\x7d"⟩)
    [.funDecl 60 ⟨1, 0, "fun"⟩ (some ⟨2, 0, "\x7d"⟩)
      (.terminal 61 ⟨1, 4, "helper"⟩) []]

/-- A file system holding exactly the imported file `lib.mykt`. -/
def wFs : String → Option PTree :=
  fun p => if p = "file:///p/lib.mykt" then some wLibTree else none

/-- The visitor state of the importing document before import
processing. -/
def wV : VisitorState :=
  { documentUri := "file:///p/main.mykt", rootSymbols := [] }

/-- The symbol built from the imported file, carrying the imported file
URI. -/
def wHelperSym : Sym :=
  Sym.scopeSym "helper"
    (some { targetUri := "file:///p/lib.mykt",
            targetRange := { start := ⟨0, 0⟩, «end» := ⟨1, 1⟩ },
            targetSelectionRange := { start := ⟨0, 4⟩, «end» := ⟨0, 10⟩ } })
    (some 60) []

/-! Helper lemmas. -/

/-- A name that matches no child of any scope along the chain is not
found. -/
theorem findDecl_none (name : String) :
    ∀ chain : List Sym,
      (∀ s ∈ chain, ∀ c ∈ symChildren s, symName c ≠ name) →
      findDeclaration name chain = none := by
  intro chain
  induction chain with
  | nil => intro _; rfl
  | cons s rest ih =>
    intro h
    have hfind : (symChildren s).find? (fun c => symName c == name) = none := by
      rw [List.find?_eq_none]
      intro c hc hbeq
      exact h s (List.mem_cons_self s rest) c hc (by simpa using hbeq)
    have hrest := ih (fun s2 hs2 => h s2 (List.mem_cons_of_mem s hs2))
    cases hsc : isScoped s <;> simp [findDeclaration, hsc, hfind, hrest]

/-- When no node of the parent chain is a scope anchor, `getScope` is
`undefined`. -/
theorem getScope_none (tbl : Sym) :
    ∀ chain : List Nat,
      (∀ n ∈ chain, searchContext n [] [tbl] = none) →
      getScope tbl chain = none := by
  intro chain
  induction chain with
  | nil => intro _; rfl
  | cons n rest ih =>
    intro h
    have h1 := h n (List.mem_cons_self n rest)
    have h2 := ih (fun m hm => h m (List.mem_cons_of_mem n hm))
    simp [getScope, searchContext] at h1 ⊢
    simp [h1, h2]

/-! Claim theorems. -/

/-- C8: for a rule node with a start token at 1-based line L1 and 0-based
column C1 and a stop token at 1-based line L2, column C2, with stop text of
length N, `getRange` returns start = (L1-1, C1) and end = (L2-1, C2+N); for
a leaf node its single token serves as both start and stop. -/
theorem c8_range_mapping :
    (∀ (i : Nat) (st sp : Token) (nm : PTree) (ch : List PTree),
      getRange (.varDecl i st (some sp) nm ch)
        = .ok { start := { line := (st.line : Int) - 1,
                           character := (st.charPositionInLine : Int) },
                «end» := { line := (sp.line : Int) - 1,
                           character := (sp.charPositionInLine : Int)
                             + sp.text.length } })
    ∧ (∀ (i : Nat) (st sp : Token) (nm : PTree) (ch : List PTree),
      getRange (.funDecl i st (some sp) nm ch)
        = .ok { start := { line := (st.line : Int) - 1,
                           character := (st.charPositionInLine : Int) },
                «end» := { line := (sp.line : Int) - 1,
                           character := (sp.charPositionInLine : Int)
                             + sp.text.length } })
    ∧ (∀ (i : Nat) (st sp : Token) (ch : List PTree),
      getRange (.rule i st (some sp) ch)
        = .ok { start := { line := (st.line : Int) - 1,
                           character := (st.charPositionInLine : Int) },
                «end» := { line := (sp.line : Int) - 1,
                           character := (sp.charPositionInLine : Int)
                             + sp.text.length } })
    ∧ (∀ (i : Nat) (t : Token),
      getRange (.terminal i t)
        = .ok { start := { line := (t.line : Int) - 1,
                           character := (t.charPositionInLine : Int) },
                «end» := { line := (t.line : Int) - 1,
                           character := (t.charPositionInLine : Int)
                             + t.text.length } }) :=
  ⟨fun _ _ _ _ _ => rfl, fun _ _ _ _ _ => rfl, fun _ _ _ _ => rfl,
   fun _ _ => rfl⟩

/-- C9: a rule node whose stop token is absent makes `getRange` signal an
error to its caller instead of producing a range with undefined fields. -/
theorem c9_missing_stop_token_errors :
    (∀ (i : Nat) (st : Token) (nm : PTree) (ch : List PTree),
      getRange (.varDecl i st none nm ch)
        = .error "TypeError: stop token is undefined")
    ∧ (∀ (i : Nat) (st : Token) (nm : PTree) (ch : List PTree),
      getRange (.funDecl i st none nm ch)
        = .error "TypeError: stop token is undefined")
    ∧ (∀ (i : Nat) (st : Token) (ch : List PTree),
      getRange (.rule i st none ch)
        = .error "TypeError: stop token is undefined") :=
  ⟨fun _ _ _ _ => rfl, fun _ _ _ _ => rfl, fun _ _ _ => rfl⟩

/-- C3: two variables named `x` declared in the same routine scope are not
an error: the builder completes with a result, the scope keeps only the
later declaration, and the lookup in that scope answers the later
declaration (the one spanning source line 3, 0-based line 2). -/
theorem c3_duplicate_names_last_wins :
    visit exUri dupProg
      = .ok [Sym.scopeSym "h" (some dupRoutineLoc) (some 30)
              [Sym.varSym "x" (some dupSecondLoc)]]
    ∧ findDeclaration "x"
        [Sym.scopeSym "h" (some dupRoutineLoc) (some 30)
          [Sym.varSym "x" (some dupSecondLoc)]]
      = some (Sym.varSym "x" (some dupSecondLoc)) :=
  ⟨rfl, rfl⟩

/-- C1 counterexample: in the example program, the top-level use of `x`
(terminal node 15, a use outside routine `f`) answers no location at all,
although the file-scope declaration of `x` is present in the root scope
with its location; the claim says this use resolves to the outer
declaration. -/
theorem c1_counterexample :
    gotoDefinition exProg exTable 15 = .ok none
    ∧ (exRootSyms.find? (fun s => symName s == "x")).map symLocation
      = some (some exOuterLoc) :=
  ⟨rfl, rfl⟩

/-- C1 amended: the use of `x` inside routine `f` (node 8) resolves to the
shadowing inner declaration; a use of `x` outside `f` resolves to the
file-scope declaration when it lies inside some anchored scope (node 12
inside routine `g`); a use with no scope-anchor ancestor (node 15 at top
level) yields no result instead of the outer declaration. -/
theorem c1_amended_shadowing :
    gotoDefinition exProg exTable 8 = .ok (some exInnerResp)
    ∧ gotoDefinition exProg exTable 12 = .ok (some exOuterResp)
    ∧ gotoDefinition exProg exTable 15 = .ok none :=
  ⟨rfl, rfl, rfl⟩

/-- C2 counterexample: the top-level use of `x` (node 15) has no ancestor
that anchors a scope; the claim says the root scope symbols are still
searched, which would find the file-scope `x` (second conjunct), yet the
lookup answers no result. -/
theorem c2_counterexample :
    gotoDefinition exProg exTable 15 = .ok none
    ∧ findDeclaration "x" [exRootScope]
      = some (Sym.varSym "x" (some exOuterLoc)) :=
  ⟨rfl, rfl⟩

/-- C2 amended: for an identifier none of whose ancestors is a scope
anchor, `getScope` returns `undefined` rather than the root scope, and the
definition lookup then answers no result without searching the root scope
symbols, whatever the table contains. -/
theorem c2_amended_no_anchor_returns_none (tbl : Sym) (ctxChain : List Nat)
    (ctxNode : PTree)
    (h : ∀ n ∈ ctxChain, searchContext n [] [tbl] = none) :
    getScope tbl ctxChain = none
    ∧ onDefinition tbl ctxChain ctxNode = .ok none := by
  have hg := getScope_none tbl ctxChain h
  exact ⟨hg, by simp [onDefinition, hg, findDeclaration]⟩

/-- C2 amended witness: the top-level use of `x` in the example program
instantiates the amended statement. -/
theorem c2_amended_witness :
    getScope exTable [15, 13, 0] = none
    ∧ onDefinition exTable [15, 13, 0] (.terminal 15 ⟨9, 8, "x"⟩)
      = .ok none :=
  c2_amended_no_anchor_returns_none exTable [15, 13, 0]
    (.terminal 15 ⟨9, 8, "x"⟩)
    (by intro n hn; fin_cases hn <;> rfl)

/-- C6: a content-change notification clears the cached parser, parse tree
and visitor unconditionally, and the next `ensureParsed` answers exactly
the artifacts rebuilt from the current text, never the pre-change ones. -/
theorem c6_change_invalidates_cache (parse : String → PTree)
    (impOf : PTree → Option (List String)) (fs : String → Option PTree)
    (ep : String → String) (d : Document) (newText : String) :
    (contentChange d newText).cache = none
    ∧ ensureParsed parse impOf fs ep (contentChange d newText)
      = (buildArtifacts parse impOf fs ep d.uri newText).map
          (fun a => (a, { uri := d.uri, text := newText, cache := some a })) :=
  ⟨rfl, rfl⟩

/-- C4: an identifier whose text matches no symbol name anywhere in its
scope chain makes `findDeclaration` return `undefined` without an
exception, and the definition request answers an absent result. -/
theorem c4_unmatched_name_returns_none (tbl : Sym) (ctxChain : List Nat)
    (ctxNode : PTree)
    (h : ∀ s ∈ (getScope tbl ctxChain).getD [], ∀ c ∈ symChildren s,
          symName c ≠ textOf ctxNode) :
    findDeclaration (textOf ctxNode) ((getScope tbl ctxChain).getD []) = none
    ∧ onDefinition tbl ctxChain ctxNode = .ok none := by
  have hfd := findDecl_none (textOf ctxNode) _ h
  exact ⟨hfd, by simp [onDefinition, hfd]⟩

/-- C4 witness: looking up the undeclared name `z` from inside routine `f`
of the example program answers an absent result. -/
theorem c4_witness :
    findDeclaration (textOf (.terminal 99 ⟨4, 2, "z"⟩))
        ((getScope exTable [8, 7, 3, 0]).getD []) = none
    ∧ onDefinition exTable [8, 7, 3, 0] (.terminal 99 ⟨4, 2, "z"⟩)
      = .ok none :=
  c4_unmatched_name_returns_none exTable [8, 7, 3, 0]
    (.terminal 99 ⟨4, 2, "z"⟩) (by decide)

/-- A symbol answered by `findDeclaration` always carries a location. -/
theorem findDecl_some_located (name : String) :
    ∀ (chain : List Sym) (s : Sym),
      findDeclaration name chain = some s → (symLocation s).isSome = true := by
  intro chain
  induction chain with
  | nil => intro s h; simp [findDeclaration] at h
  | cons a rest ih =>
    intro s h
    simp only [findDeclaration] at h
    split at h
    · split at h
      · split at h
        · cases h
          assumption
        · exact ih s h
      · exact ih s h
    · exact ih s h

/-- A scope whose first name match lacks a location is skipped: the search
continues with the parent chain. -/
theorem findDecl_skip_unlocated (name : String) (s2 : Sym)
    (rest2 : List Sym) (c : Sym) (hsc : isScoped s2 = true)
    (hfind : (symChildren s2).find? (fun c2 => symName c2 == name) = some c)
    (hloc : symLocation c = none) :
    findDeclaration name (s2 :: rest2) = findDeclaration name rest2 := by
  simp [findDeclaration, hsc, hfind, hloc]

/-- When each scope of the chain has no two children with the same name,
an absent lookup result means every matching child anywhere in the chain
lacks a location. -/
theorem findDecl_none_unlocated (name : String) :
    ∀ chain : List Sym,
      (∀ s ∈ chain, ((symChildren s).map symName).Nodup) →
      findDeclaration name chain = none →
      ∀ s ∈ chain, ∀ c ∈ symChildren s, symName c = name →
        symLocation c = none := by
  intro chain
  induction chain with
  | nil => intro _ _ s hs; exact absurd hs (List.not_mem_nil s)
  | cons a rest ih =>
    intro hnd h s hs c hc hcn
    have hndr : ∀ s2 ∈ rest, ((symChildren s2).map symName).Nodup :=
      fun s2 h2 => hnd s2 (List.mem_cons_of_mem a h2)
    simp only [findDeclaration] at h
    rcases List.mem_cons.mp hs with rfl | hs2
    · split at h
      · split at h
        next c0 heq =>
          split at h
          next hloc => exact absurd h (by simp)
          next hloc =>
            have hc0mem := List.mem_of_find?_eq_some heq
            have hc0name : symName c0 = name := by
              have := List.find?_some heq
              simpa using this
            have hceq : c = c0 := by
              have hnda := hnd s (List.mem_cons_self s rest)
              exact List.inj_on_of_nodup_map hnda hc hc0mem
                (by rw [hcn, hc0name])
            rw [hceq]
            exact Option.not_isSome_iff_eq_none.mp hloc
        next heq =>
          have := List.find?_eq_none.mp heq c hc
          simp [hcn] at this
      · next hsc =>
          cases s with
          | varSym n l => exact absurd hc (List.not_mem_nil c)
          | scopeSym n l cx ch => simp [isScoped] at hsc
    · have hrest : findDeclaration name rest = none := by
        split at h
        · split at h
          · split at h
            · exact absurd h (by simp)
            · exact h
          · exact h
        · exact h
      exact ih hndr hrest s hs2 c hc hcn

/-- C10: the lookup only ever returns a symbol with a recorded location; a
scope whose name match lacks a location is skipped in favour of the parent
chain; and (for scopes whose child names are distinct, as the last-wins
mapping guarantees) an absent result means no located match exists anywhere
up the chain. -/
theorem c10_only_located_declarations (name : String) (chain : List Sym) :
    (∀ s : Sym, findDeclaration name chain = some s →
      (symLocation s).isSome = true)
    ∧ (∀ (s2 : Sym) (rest2 : List Sym) (c : Sym),
        isScoped s2 = true →
        (symChildren s2).find? (fun c2 => symName c2 == name) = some c →
        symLocation c = none →
        findDeclaration name (s2 :: rest2) = findDeclaration name rest2)
    ∧ ((∀ s ∈ chain, ((symChildren s).map symName).Nodup) →
       findDeclaration name chain = none →
       ∀ s ∈ chain, ∀ c ∈ symChildren s, symName c = name →
         symLocation c = none) :=
  ⟨fun s h => findDecl_some_located name chain s h,
   fun s2 rest2 c h1 h2 h3 => findDecl_skip_unlocated name s2 rest2 c h1 h2 h3,
   fun hnd h => findDecl_none_unlocated name chain hnd h⟩

/-- C10 witness: on a chain whose innermost scope holds a matching symbol
`q` without a location, the absent lookup result certifies that every
match along the chain is unlocated. -/
theorem c10_witness :
    ∀ s ∈ wChain, ∀ c ∈ symChildren s, symName c = "q" →
      symLocation c = none :=
  (c10_only_located_declarations "q" wChain).2.2 (by decide) rfl

/-- The import loop processes a concatenation of import lists in
sequence, threading the visitor state and concatenating the warnings. -/
theorem importLoop_append (fs : String → Option PTree) (bU bP : String) :
    ∀ (xs ys : List String) (v : VisitorState),
      importLoop fs bU bP (xs ++ ys) v
        = ((importLoop fs bU bP ys (importLoop fs bU bP xs v).1).1,
           (importLoop fs bU bP xs v).2
             ++ (importLoop fs bU bP ys (importLoop fs bU bP xs v).1).2) := by
  intro xs
  induction xs with
  | nil => intro ys v; simp [importLoop]
  | cons f xs ih =>
    intro ys v
    simp only [List.cons_append, importLoop]
    split
    · simp [ih, List.append_assoc]
    · simp [ih]

/-- C5: an import whose resolved file path does not exist contributes a
user-visible warning, adds nothing to the visitor state, and the remaining
imports are processed exactly as if the missing one were absent. -/
theorem c5_missing_import_skipped (fs : String → Option PTree)
    (ep : String → String) (v : VisitorState) (pre post : List String)
    (f : String)
    (h : fs (ep (computeBaseUri v.documentUri) ++ (f ++ ".mykt")) = none) :
    (processImports fs ep (pre ++ f :: post) v).1
      = (processImports fs ep (pre ++ post) v).1
    ∧ ("Imported file not found: "
        ++ (ep (computeBaseUri v.documentUri) ++ (f ++ ".mykt")))
      ∈ (processImports fs ep (pre ++ f :: post) v).2 := by
  have hstep : ∀ w : VisitorState,
      importLoop fs (computeBaseUri v.documentUri)
          (ep (computeBaseUri v.documentUri)) (f :: post) w
        = ((importLoop fs (computeBaseUri v.documentUri)
              (ep (computeBaseUri v.documentUri)) post w).1,
           ("Imported file not found: "
              ++ (ep (computeBaseUri v.documentUri) ++ (f ++ ".mykt")))
             :: (importLoop fs (computeBaseUri v.documentUri)
                  (ep (computeBaseUri v.documentUri)) post w).2) := by
    intro w
    simp only [importLoop]
    simp [h]
  constructor
  · simp only [processImports]
    rw [importLoop_append fs _ _ pre (f :: post) v,
        importLoop_append fs _ _ pre post v, hstep]
  · simp only [processImports]
    rw [importLoop_append fs _ _ pre (f :: post) v, hstep]
    simp

/-- C5 witness: with only `lib.mykt` on disk, importing `lib` then
`missing` behaves like importing just `lib`, plus the warning about
`missing.mykt`. -/
theorem c5_witness :
    (processImports wFs id (["lib"] ++ "missing" :: []) wV).1
      = (processImports wFs id (["lib"] ++ []) wV).1
    ∧ ("Imported file not found: "
        ++ (id (computeBaseUri wV.documentUri) ++ ("missing" ++ ".mykt")))
      ∈ (processImports wFs id (["lib"] ++ "missing" :: []) wV).2 :=
  c5_missing_import_skipped wFs id wV ["lib"] [] "missing" rfl

/-- `symsUris` distributes over list append. -/
theorem symsUris_append :
    ∀ l1 l2 : List Sym, symsUris (l1 ++ l2) = symsUris l1 ++ symsUris l2 := by
  intro l1 l2
  induction l1 with
  | nil => simp [symsUris]
  | cons s rest ih => simp [symsUris, ih]

/-- Membership in `symsUris` comes from some symbol of the list. -/
theorem symsUris_mem (u : String) :
    ∀ l : List Sym, u ∈ symsUris l ↔ ∃ x ∈ l, u ∈ symUris x := by
  intro l
  induction l with
  | nil => simp [symsUris]
  | cons s rest ih => simp [symsUris, List.mem_append, ih]

/-- Symbols surviving the registration fold come from the initial scope
contents or from the registered contributions. -/
theorem registerAll_mem :
    ∀ (l init : List Sym) (x : Sym),
      x ∈ registerAll init l → x ∈ init ∨ x ∈ l := by
  intro l
  induction l with
  | nil => intro init x h; exact Or.inl h
  | cons s rest ih =>
    intro init x h
    simp only [registerAll, List.foldl_cons] at h
    rcases ih (addSymbol init s) x h with h2 | h2
    · simp only [addSymbol] at h2
      split at h2
      · rcases List.mem_append.mp h2 with h3 | h3
        · exact Or.inl h3
        · rw [List.mem_singleton.mp h3]
          exact Or.inr (List.mem_cons_self s rest)
      · rcases List.mem_append.mp h2 with h3 | h3
        · exact Or.inl (List.mem_of_mem_filter h3)
        · rw [List.mem_singleton.mp h3]
          exact Or.inr (List.mem_cons_self s rest)
    · exact Or.inr (List.mem_cons_of_mem s h2)

/-- The URIs of a freshly registered scope child list come from the
contributions. -/
theorem symsUris_registerAll_nil (l : List Sym) :
    symsUris (registerAll [] l) ⊆ symsUris l := by
  intro u hu
  rcases (symsUris_mem u (registerAll [] l)).mp hu with ⟨x, hx, hux⟩
  rcases registerAll_mem l [] x hx with h | h
  · exact absurd h (List.not_mem_nil x)
  · exact (symsUris_mem u l).mpr ⟨x, h, hux⟩

/-- A location link built by `registerDeclaration` carries the visitor
current document URI. -/
theorem locationLinkOf_uri (uri : String) (tree nameNode : PTree)
    (l : LocationLink) (h : locationLinkOf uri tree nameNode = .ok l) :
    l.targetUri = uri := by
  simp only [locationLinkOf] at h
  split at h
  · exact absurd h (by simp)
  · split at h
    · exact absurd h (by simp)
    · cases h
      rfl

mutual

/-- Every symbol registered while visiting one node carries the visitor
current document URI in its recorded locations. -/
theorem visitT_uris (uri : String) (t : PTree) (syms : List Sym)
    (h : visitT uri t = .ok syms) : symsUris syms ⊆ [uri] := by
  cases t with
  | varDecl i st sp nm ch =>
    simp only [visitT] at h
    split at h
    · exact absurd h (by simp)
    next loc hloc =>
      split at h
      · exact absurd h (by simp)
      next inner hinner =>
        cases h
        intro u hu
        simp only [symsUris] at hu
        rcases List.mem_append.mp hu with hu | hu
        · simp only [symUris, Option.map_some', Option.toList_some,
            List.mem_singleton] at hu
          rw [hu, locationLinkOf_uri uri _ nm loc hloc]
          exact List.mem_singleton.mpr rfl
        · exact visitL_uris uri ch inner hinner hu
  | funDecl i st sp nm ch =>
    simp only [visitT] at h
    split at h
    · exact absurd h (by simp)
    next loc hloc =>
      split at h
      · exact absurd h (by simp)
      next inner hinner =>
        cases h
        intro u hu
        simp only [symsUris, symUris, List.append_nil] at hu
        rcases List.mem_append.mp hu with hu | hu
        · simp only [Option.map_some', Option.toList_some,
            List.mem_singleton] at hu
          rw [hu, locationLinkOf_uri uri _ nm loc hloc]
          exact List.mem_singleton.mpr rfl
        · exact visitL_uris uri ch inner hinner
            (symsUris_registerAll_nil inner hu)
  | rule i st sp ch =>
    exact visitL_uris uri ch syms h
  | terminal i tok =>
    cases h
    simp [symsUris]

/-- Every symbol registered while visiting sibling nodes carries the
visitor current document URI in its recorded locations. -/
theorem visitL_uris (uri : String) (ts : List PTree) (syms : List Sym)
    (h : visitL uri ts = .ok syms) : symsUris syms ⊆ [uri] := by
  cases ts with
  | nil =>
    cases h
    simp [symsUris]
  | cons t rest =>
    simp only [visitL] at h
    split at h
    · exact absurd h (by simp)
    next a ha =>
      split at h
      · exact absurd h (by simp)
      next b hb =>
        cases h
        rw [symsUris_append]
        intro u hu
        rcases List.mem_append.mp hu with hu | hu
        · exact visitT_uris uri t a ha hu
        · exact visitL_uris uri rest b hb hu

end

/-- C7: while a found import is processed, the shared visitor is rebound
to the imported file URI and nothing else: the loop step on a found import
equals the rest of the loop started from the state whose `documentUri` is
the imported file URI and whose root symbols are the previous ones with the
imported file contributions folded in (third conjunct); every symbol
registered from the imported tree carries the imported file URI (second
conjunct); and after the whole import list the `documentUri` is restored to
the importing document URI (first conjunct). -/
theorem c7_import_uri_rebinding (fs : String → Option PTree)
    (ep : String → String) (v : VisitorState) (pre post : List String)
    (f : String) (tree : PTree) (syms : List Sym)
    (hfs : fs (ep (computeBaseUri v.documentUri) ++ (f ++ ".mykt"))
      = some tree)
    (hv : visit (computeBaseUri v.documentUri ++ (f ++ ".mykt")) tree
      = .ok syms) :
    (processImports fs ep (pre ++ f :: post) v).1.documentUri = v.documentUri
    ∧ symsUris syms ⊆ [computeBaseUri v.documentUri ++ (f ++ ".mykt")]
    ∧ importLoop fs (computeBaseUri v.documentUri)
        (ep (computeBaseUri v.documentUri)) (f :: post)
        (importLoop fs (computeBaseUri v.documentUri)
          (ep (computeBaseUri v.documentUri)) pre v).1
      = importLoop fs (computeBaseUri v.documentUri)
          (ep (computeBaseUri v.documentUri)) post
          { documentUri := computeBaseUri v.documentUri ++ (f ++ ".mykt"),
            rootSymbols := registerAll
              (importLoop fs (computeBaseUri v.documentUri)
                (ep (computeBaseUri v.documentUri)) pre v).1.rootSymbols
              syms } := by
  refine ⟨?_, ?_, ?_⟩
  · simp [processImports]
  · exact visitT_uris _ tree syms hv
  · have hs : (fs (ep (computeBaseUri v.documentUri)
        ++ (f ++ ".mykt"))).isSome = true := by
      rw [hfs]; rfl
    simp only [importLoop]
    simp [hs, processImport, hfs, hv]

/-- C7 witness: importing `lib` into the example document rebinds the
visitor to `file:///p/lib.mykt`, registers the `helper` symbol carrying
that URI, and restores the original URI afterwards. -/
theorem c7_witness :
    (processImports wFs id ([] ++ "lib" :: []) wV).1.documentUri
      = wV.documentUri
    ∧ symsUris [wHelperSym]
      ⊆ [computeBaseUri wV.documentUri ++ ("lib" ++ ".mykt")]
    ∧ importLoop wFs (computeBaseUri wV.documentUri)
        (id (computeBaseUri wV.documentUri)) ("lib" :: [])
        (importLoop wFs (computeBaseUri wV.documentUri)
          (id (computeBaseUri wV.documentUri)) [] wV).1
      = importLoop wFs (computeBaseUri wV.documentUri)
          (id (computeBaseUri wV.documentUri)) []
          { documentUri := computeBaseUri wV.documentUri ++ ("lib" ++ ".mykt"),
            rootSymbols := registerAll
              (importLoop wFs (computeBaseUri wV.documentUri)
                (id (computeBaseUri wV.documentUri)) [] wV).1.rootSymbols
              [wHelperSym] } :=
  c7_import_uri_rebinding wFs id wV [] [] "lib" wLibTree [wHelperSym] rfl rfl

end GoToDef
